import Mathlib

/-!
# 2dplatformer: player physics, key handling, sprite atlas and quad projection

A shallow embedding of `src/main.c` and `src/sprite.c`.

* The C globals `player`, `tile`, `pressed_A`, `pressed_D`, `pressed_S` are gathered in the
  record `World`; `updatePlayer` and `keyCallback` are functions `World → World`.
* In `updatePlayer` and `keyCallback`, `float` values are represented by exact rationals:
  every arithmetic step of the source is carried out without rounding.
* In `drawPlayer`, whose results are the numbers handed to the renderer, every conversion to
  `float` and every `float` operation is rounded to the nearest binary32 value, ties to even
  (`roundF32`), one rounding per operation.
* `GLuint` arithmetic is carried out on naturals reduced modulo `2 ^ 32`, and an `int`
  operand that meets a `GLuint` one is converted with `toU32` first, as C does.
* The key and action codes are the values `GLFW/glfw3.h` gives them.
-/

namespace Platformer

/-! ## sprite.h / sprite.c -/

/-- The enumeration `enum SpriteID` of `sprite.h`. -/
inductive SpriteID where
  | PLAYER_IDLE
  | PLAYER_RUN
  | PLAYER_CROUCH
  | PLAYER_CROUCH_WALK
  | PLAYER_JUMP
  | TILE_ROCK
  deriving DecidableEq, Repr

/-- The record `struct Sprite` of `sprite.h`: all fields are C `int`s. -/
structure Sprite where
  x : Int
  y : Int
  width : Int
  height : Int
  num_frames : Int
  deriving DecidableEq, Repr

/-- The function `getSprite` of `sprite.c`: one `case` per enumerator. -/
def getSprite : SpriteID → Sprite
  | .PLAYER_IDLE => { width := 120, height := 80, num_frames := 10, x := 1, y := 739 }
  | .PLAYER_RUN => { width := 120, height := 80, num_frames := 10, x := 1, y := 903 }
  | .PLAYER_CROUCH => { width := 120, height := 80, num_frames := 1, x := 1143, y := 83 }
  | .PLAYER_CROUCH_WALK => { width := 120, height := 80, num_frames := 8, x := 363, y := 411 }
  | .PLAYER_JUMP => { width := 120, height := 80, num_frames := 3, x := 605, y := 493 }
  | .TILE_ROCK => { width := 16, height := 16, num_frames := 1, x := 17, y := 1 }

/-! ## main.c: state -/

/-- The record `struct Player` of `main.c`. -/
structure Player where
  x : ℚ
  y : ℚ
  vel_x : ℚ
  vel_y : ℚ
  acc_x : ℚ
  acc_y : ℚ
  speed : ℚ
  is_facing_right : Bool
  animation_state : SpriteID
  deriving DecidableEq, Repr

/-- The record `struct Rect` of `main.c`. -/
structure Rect where
  x : ℚ
  y : ℚ
  width : ℚ
  height : ℚ
  deriving DecidableEq, Repr

/-- The mutable globals of `main.c` that the simulation reads and writes. -/
structure World where
  player : Player
  tile : Rect
  pressed_A : Bool
  pressed_D : Bool
  pressed_S : Bool
  deriving DecidableEq, Repr

/-- The initial values `main` assigns before entering the loop (lines 153-167), together with
the initialisers of the three key flags. -/
def initialWorld : World where
  player :=
    { x := -0.5
      y := -0.5
      vel_x := 0
      vel_y := 0
      acc_x := 0
      acc_y := -0.001
      speed := 0.005
      is_facing_right := true
      animation_state := .PLAYER_IDLE }
  tile := { x := -1, y := -1, width := 2, height := 0.2 }
  pressed_A := false
  pressed_D := false
  pressed_S := false

/-! ## main.c: updatePlayer -/

/-- The first statement of `updatePlayer` (lines 219-243): the `if` chain that chooses the
animation and, except while ascending, the horizontal velocity. -/
def chooseAnimation (w : World) : Player :=
  let p := w.player
  if p.vel_y > 0 then
    { p with animation_state := .PLAYER_JUMP }
  else if w.pressed_A = true ∧ w.pressed_D = false then
    if w.pressed_S = true then
      { p with animation_state := .PLAYER_CROUCH_WALK, vel_x := -0.5 * p.speed }
    else
      { p with animation_state := .PLAYER_RUN, vel_x := -p.speed }
  else if w.pressed_A = false ∧ w.pressed_D = true then
    if w.pressed_S = true then
      { p with animation_state := .PLAYER_CROUCH_WALK, vel_x := 0.5 * p.speed }
    else
      { p with animation_state := .PLAYER_RUN, vel_x := p.speed }
  else if w.pressed_S = true then
    { p with animation_state := .PLAYER_CROUCH, vel_x := 0 }
  else
    { p with animation_state := .PLAYER_IDLE, vel_x := 0 }

/-- The second statement of `updatePlayer` (lines 247-250): the floor tile collision. -/
def collideFloor (tile : Rect) (p : Player) : Player :=
  if p.y ≤ tile.y + tile.height ∧ p.vel_y ≤ 0 then
    { p with vel_y := 0, y := tile.y + tile.height }
  else
    p

/-- The last three statements of `updatePlayer` (lines 252-254), in source order:
`x += vel_x`, then `vel_y += acc_y`, then `y += vel_y` with the new `vel_y`. -/
def integrate (p : Player) : Player :=
  let p := { p with x := p.x + p.vel_x }
  let p := { p with vel_y := p.vel_y + p.acc_y }
  { p with y := p.y + p.vel_y }

/-- The function `updatePlayer` of `main.c`: one simulation tick. -/
def updatePlayer (w : World) : World :=
  { w with player := integrate (collideFloor w.tile (chooseAnimation w)) }

/-! ## main.c: keyCallback -/

/-- Key code of the A key in `GLFW/glfw3.h`. -/
def GLFW_KEY_A : Int := 65
/-- Key code of the D key in `GLFW/glfw3.h`. -/
def GLFW_KEY_D : Int := 68
/-- Key code of the S key in `GLFW/glfw3.h`. -/
def GLFW_KEY_S : Int := 83
/-- Key code of the space bar in `GLFW/glfw3.h`. -/
def GLFW_KEY_SPACE : Int := 32
/-- Action code of a key release in `GLFW/glfw3.h`. -/
def GLFW_RELEASE : Int := 0
/-- Action code of a key press in `GLFW/glfw3.h`. -/
def GLFW_PRESS : Int := 1
/-- Action code of a key held until it repeats in `GLFW/glfw3.h`. -/
def GLFW_REPEAT : Int := 2

/-- The function `keyCallback` of `main.c`; the unused arguments `window`, `scancode` and
`mods` are left out. A key that matches no `case` leaves the state as it is. -/
def keyCallback (w : World) (key action : Int) : World :=
  if key = GLFW_KEY_A then
    if action = GLFW_RELEASE then
      { w with pressed_A := false }
    else if action = GLFW_PRESS then
      { w with pressed_A := true, player := { w.player with is_facing_right := false } }
    else w
  else if key = GLFW_KEY_D then
    if action = GLFW_RELEASE then
      { w with pressed_D := false }
    else if action = GLFW_PRESS then
      { w with pressed_D := true, player := { w.player with is_facing_right := true } }
    else w
  else if key = GLFW_KEY_S then
    if action = GLFW_RELEASE then
      { w with pressed_S := false }
    else if action = GLFW_PRESS then
      { w with pressed_S := true }
    else w
  else if key = GLFW_KEY_SPACE then
    if action = GLFW_RELEASE then
      { w with player := { w.player with vel_y := w.player.vel_y + 0.05 } }
    else w
  else w

/-! ## main.c: the loop -/

/-- One iteration of the `while` loop of `main` as far as the simulation state goes:
`updatePlayer()` first, then the key events `glfwPollEvents()` delivers to `keyCallback`,
each a pair `(key, action)`, in order. -/
def loopIteration (w : World) (events : List (Int × Int)) : World :=
  events.foldl (fun s e => keyCallback s e.1 e.2) (updatePlayer w)

/-- The state after as many loop iterations as `polled` has entries, the `i`-th entry being
the events polled at the end of iteration `i`. -/
def runLoop (w : World) (polled : List (List (Int × Int))) : World :=
  polled.foldl loopIteration w

/-- Conversion of a C `int` to `GLuint` (`unsigned int`, 32 bits): reduction modulo `2 ^ 32`. -/
def toU32 (n : Int) : Nat := (n % 2 ^ 32).toNat

/-- The frame index of line 196, `(GLuint)(10*glfwGetTime()) % player_sprite.num_frames`,
for `t` the value of the `GLuint` on the left: the `int` divisor is converted to `GLuint`,
and the result is `none` when that divisor is zero. -/
def frameIndex (t : Nat) (sprite : Sprite) : Option Nat :=
  if toU32 sprite.num_frames = 0 then none
  else some (t % 2 ^ 32 % toU32 sprite.num_frames)

/-! ## Single-precision arithmetic -/

/-- The integer nearest to `q`, the even one of the two when `q` lies half-way. -/
def roundHalfEven (q : ℚ) : Int :=
  if q - ⌊q⌋ < 1 / 2 then ⌊q⌋
  else if 1 / 2 < q - ⌊q⌋ then ⌊q⌋ + 1
  else if ⌊q⌋ % 2 = 0 then ⌊q⌋
  else ⌊q⌋ + 1

/-- The binary32 (`float`) value nearest to `q`, ties to even: `q` is rounded to a multiple
of `2 ^ (e - 23)` for `2 ^ e ≤ |q| < 2 ^ (e + 1)`, that is to a significand of 24 bits. The
exponent is not bounded: the values `drawPlayer` rounds for the texture coordinates are
integers below `2 ^ 33` in magnitude and quotients of such integers, zero or at least
`2 ^ (-31)` in magnitude, which is inside the normal range of binary32. -/
def roundF32 (q : ℚ) : ℚ :=
  if q = 0 then 0
  else (roundHalfEven (q / 2 ^ (Int.log 2 |q| - 23)) : ℚ) * 2 ^ (Int.log 2 |q| - 23)

/-- Conversion of a C `int` to `float`. -/
def intToFloat (n : Int) : ℚ := roundF32 (n : ℚ)

/-- Conversion of a `GLuint` to `float`. -/
def uintToFloat (n : Nat) : ℚ := roundF32 (n : ℚ)

/-- The `float` sum `a + b`. -/
def f32add (a b : ℚ) : ℚ := roundF32 (a + b)

/-- The `float` difference `a - b`. -/
def f32sub (a b : ℚ) : ℚ := roundF32 (a - b)

/-- The `float` quotient `a / b`. A division by zero, which C answers with an infinity or a
NaN, is outside the model: the quotient is `0` here. -/
def f32div (a b : ℚ) : ℚ := roundF32 (a / b)

/-! ## main.c: drawPlayer -/

/-- The sixteen floats `drawPlayer` writes to `vertices[]` (lines 283-305), for the globals
`img_width`, `img_height` and `player.is_facing_right` given as arguments, and `x`, `y` the
two `GLfloat` arguments. The products `(frame+1) * sprite.width` and `frame * sprite.width`
are `GLuint` products, converted to `float` before they are added to `tex_x`; the
difference `img_height - sprite.y` is an `int` one, converted on assignment; the operands
`sprite.x`, `sprite.height`, `img_width`, `img_height` and `1` are `int`s converted to
`float`. -/
def drawPlayer (sprite : Sprite) (x y : ℚ) (frame : Nat) (is_facing_right : Bool)
    (img_width img_height : Int) : List ℚ :=
  let tex_x : ℚ := intToFloat sprite.x
  let tex_y : ℚ := intToFloat (img_height - sprite.y)
  let right_x : ℚ :=
    f32div (f32add tex_x (uintToFloat ((frame + 1) % 2 ^ 32 * toU32 sprite.width % 2 ^ 32)))
      (intToFloat img_width)
  let left_x : ℚ :=
    f32div (f32add tex_x (uintToFloat (frame % 2 ^ 32 * toU32 sprite.width % 2 ^ 32)))
      (intToFloat img_width)
  let top_y : ℚ := f32div tex_y (intToFloat img_height)
  let bottom_y : ℚ := f32div (f32sub tex_y (intToFloat sprite.height)) (intToFloat img_height)
  let flipped : ℚ × ℚ := if is_facing_right = false then (left_x, right_x) else (right_x, left_x)
  let right_x := flipped.1
  let left_x := flipped.2
  [ f32add x (intToFloat 1), f32add y (intToFloat 1), right_x, top_y,
    f32add x (intToFloat 1), y, right_x, bottom_y,
    x, y, left_x, bottom_y,
    x, f32add y (intToFloat 1), left_x, top_y ]

/-- Position `(pos_x, pos_y)` of vertex `i` of a vertex array with four floats a vertex. -/
def vertexPos (vertices : List ℚ) (i : Nat) : ℚ × ℚ :=
  (vertices.getD (4 * i) 0, vertices.getD (4 * i + 1) 0)

/-- Texture coordinate U of vertex `i`. -/
def vertexU (vertices : List ℚ) (i : Nat) : ℚ := vertices.getD (4 * i + 2) 0

/-- Texture coordinate V of vertex `i`. -/
def vertexV (vertices : List ℚ) (i : Nat) : ℚ := vertices.getD (4 * i + 3) 0

/-! ## Concrete states used below -/

/-- The start state with the player sunk `0.001` into the floor and falling at `0.01`. -/
def sunkWorld : World :=
  { initialWorld with
    player := { initialWorld.player with
      y := initialWorld.tile.y + initialWorld.tile.height - 0.001, vel_y := -0.01 } }

/-- The start state ascending at `0.01` with the left key held. -/
def ascendingLeftWorld : World :=
  { initialWorld with
    pressed_A := true
    player := { initialWorld.player with vel_y := 0.01, vel_x := 0.003 } }

/-- The start state with the left key and the crouch key held. -/
def crouchLeftWorld : World :=
  { initialWorld with pressed_A := true, pressed_S := true }

/-- The decision table as the specification words it, for `left`, `right`, `crouch` the
three key flags: all eight rows are written out. -/
def specDecisionTable (left right crouch : Bool) (speed : ℚ) : SpriteID × ℚ :=
  match left, right, crouch with
  | true, false, false => (.PLAYER_RUN, -speed)
  | true, false, true => (.PLAYER_CROUCH_WALK, -speed / 2)
  | false, true, false => (.PLAYER_RUN, speed)
  | false, true, true => (.PLAYER_CROUCH_WALK, speed / 2)
  | true, true, false => (.PLAYER_IDLE, 0)
  | true, true, true => (.PLAYER_CROUCH, 0)
  | false, false, false => (.PLAYER_IDLE, 0)
  | false, false, true => (.PLAYER_CROUCH, 0)

/-- The horizontal mirror of a four-vertex array as the specification words it: the U of
the right vertex and the U of the left vertex are exchanged on the top edge (vertices 0
and 3) and on the bottom edge (vertices 1 and 2); nothing else moves. -/
def specMirrorU : List ℚ → List ℚ
  | [px0, py0, u0, v0, px1, py1, u1, v1, px2, py2, u2, v2, px3, py3, u3, v3] =>
    [px0, py0, u3, v0, px1, py1, u2, v1, px2, py2, u1, v2, px3, py3, u0, v3]
  | other => other

/-- A state is grounded when the collision test of `updatePlayer` (line 247) holds in it. -/
def grounded (w : World) : Prop :=
  w.player.y ≤ w.tile.y + w.tile.height ∧ w.player.vel_y ≤ 0

instance (w : World) : Decidable (grounded w) := by
  unfold grounded
  infer_instance

/-- A key event that is a release of the jump key. -/
def isJumpRelease (e : Int × Int) : Prop := e.1 = GLFW_KEY_SPACE ∧ e.2 = GLFW_RELEASE

instance (e : Int × Int) : Decidable (isJumpRelease e) := by
  unfold isJumpRelease
  infer_instance

/-- The state the program is in after twenty-four ticks without input: the player touches
the tile top, `y = -0.8`, falling at `0.024`. -/
def contactWorld : World :=
  { initialWorld with player := { initialWorld.player with y := -0.8, vel_y := -0.024 } }

/-- Three loop iterations of key events without a release of the jump key: a press of A, then
a press of the jump key and a release of A, then nothing. -/
def samplePolled : List (List (Int × Int)) :=
  [[(GLFW_KEY_A, GLFW_PRESS)], [(GLFW_KEY_SPACE, GLFW_PRESS), (GLFW_KEY_A, GLFW_RELEASE)], []]

/-! ## Helper lemmas -/

theorem collideFloor_grounded (tile : Rect) (p : Player)
    (hy : p.y ≤ tile.y + tile.height) (hv : p.vel_y ≤ 0) :
    collideFloor tile p = { p with vel_y := 0, y := tile.y + tile.height } := by
  simp [collideFloor, hy, hv]

theorem chooseAnimation_y (w : World) : (chooseAnimation w).y = w.player.y := by
  unfold chooseAnimation
  simp only []
  split_ifs <;> rfl

theorem chooseAnimation_vel_y (w : World) : (chooseAnimation w).vel_y = w.player.vel_y := by
  unfold chooseAnimation
  simp only []
  split_ifs <;> rfl

theorem chooseAnimation_acc_y (w : World) : (chooseAnimation w).acc_y = w.player.acc_y := by
  unfold chooseAnimation
  simp only []
  split_ifs <;> rfl

theorem chooseAnimation_facing (w : World) :
    (chooseAnimation w).is_facing_right = w.player.is_facing_right := by
  unfold chooseAnimation
  simp only []
  split_ifs <;> rfl

/-- A tick that starts in floor contact and not ascending ends with `vel_y = acc_y` and
`y = tile.y + tile.height + acc_y`. -/
theorem updatePlayer_grounded (w : World)
    (hy : w.player.y ≤ w.tile.y + w.tile.height) (hv : w.player.vel_y ≤ 0) :
    (updatePlayer w).player.vel_y = w.player.acc_y ∧
      (updatePlayer w).player.y = w.tile.y + w.tile.height + w.player.acc_y := by
  have h1 : (chooseAnimation w).y ≤ w.tile.y + w.tile.height := by
    rw [chooseAnimation_y]; exact hy
  have h2 : (chooseAnimation w).vel_y ≤ 0 := by
    rw [chooseAnimation_vel_y]; exact hv
  simp [updatePlayer, collideFloor_grounded _ _ h1 h2, integrate, chooseAnimation_acc_y]

/-! ## The claims -/

/-- C1 (as the code has it): a player with `position.y = tile.y + tile.height - 0.001` and
`vel_y = -0.01` ends one `updatePlayer` tick with `position.y = tile.y + tile.height + acc_y`
and `vel_y = acc_y`: the clamp to the tile top and to zero velocity is followed, in the same
tick, by the integration step. -/
theorem C1_clamp_then_integrate (w : World)
    (hy : w.player.y = w.tile.y + w.tile.height - 0.001) (hv : w.player.vel_y = -0.01) :
    (updatePlayer w).player.y = w.tile.y + w.tile.height + w.player.acc_y ∧
      (updatePlayer w).player.vel_y = w.player.acc_y := by
  have h := updatePlayer_grounded w (by rw [hy]; norm_num) (by rw [hv]; norm_num)
  exact ⟨h.2, h.1⟩

/-- C1, witness: the program's tile (`y = -1`, `height = 0.2`) and gravity `-0.001` give
`position.y = -0.801` and `vel_y = -0.001` after the tick. -/
theorem C1_clamp_then_integrate_witness :
    (sunkWorld.player.y = sunkWorld.tile.y + sunkWorld.tile.height - 0.001 ∧
      sunkWorld.player.vel_y = -0.01) ∧
    ((updatePlayer sunkWorld).player.y =
        sunkWorld.tile.y + sunkWorld.tile.height + sunkWorld.player.acc_y ∧
      (updatePlayer sunkWorld).player.vel_y = sunkWorld.player.acc_y) :=
  ⟨⟨rfl, rfl⟩, C1_clamp_then_integrate sunkWorld rfl rfl⟩

/-- C1, counterexample to the claim as stated: for the program's tile and gravity, the player
sunk `0.001` into the floor with `vel_y = -0.01` ends the tick at `position.y = -0.801`,
not at the tile top `-0.8`, and with `vel_y = -0.001`, not `0`. -/
theorem C1_counterexample :
    sunkWorld.player.y = sunkWorld.tile.y + sunkWorld.tile.height - 0.001 ∧
    sunkWorld.player.vel_y = -0.01 ∧
    (updatePlayer sunkWorld).player.y = -0.801 ∧
    (updatePlayer sunkWorld).player.vel_y = -0.001 ∧
    (updatePlayer sunkWorld).player.y ≠ sunkWorld.tile.y + sunkWorld.tile.height ∧
    (updatePlayer sunkWorld).player.vel_y ≠ 0 := by
  norm_num [updatePlayer, integrate, collideFloor, chooseAnimation, sunkWorld, initialWorld]

/-- C2: while the player ascends (`vel_y > 0`), whatever keys are held, one `updatePlayer`
tick sets the animation to `PLAYER_JUMP`, keeps `vel_x` as it was and moves `x` by that
old `vel_x`. -/
theorem C2_jump_precedence (w : World) (h : w.player.vel_y > 0) :
    (updatePlayer w).player.animation_state = SpriteID.PLAYER_JUMP ∧
      (updatePlayer w).player.vel_x = w.player.vel_x ∧
      (updatePlayer w).player.x = w.player.x + w.player.vel_x := by
  have hn : ¬ w.player.vel_y ≤ 0 := not_le.mpr h
  simp [updatePlayer, integrate, collideFloor, chooseAnimation, h, hn]

/-- C2, witness: `vel_y = 0.01` with the left key held gives `PLAYER_JUMP`, and `vel_x`
stays `0.003`. -/
theorem C2_jump_precedence_witness :
    ascendingLeftWorld.player.vel_y > 0 ∧ ascendingLeftWorld.pressed_A = true ∧
      (updatePlayer ascendingLeftWorld).player.animation_state = SpriteID.PLAYER_JUMP ∧
      (updatePlayer ascendingLeftWorld).player.vel_x = ascendingLeftWorld.player.vel_x ∧
      (updatePlayer ascendingLeftWorld).player.x =
        ascendingLeftWorld.player.x + ascendingLeftWorld.player.vel_x :=
  ⟨by norm_num [ascendingLeftWorld, initialWorld], rfl,
    C2_jump_precedence ascendingLeftWorld (by norm_num [ascendingLeftWorld, initialWorld])⟩

/-- C3: when the player is not ascending (`vel_y ≤ 0`), one `updatePlayer` tick sets
`(animation_state, vel_x)` to the row of the eight-row decision table selected by the three
key flags. -/
theorem C3_decision_table (w : World) (h : w.player.vel_y ≤ 0) :
    ((updatePlayer w).player.animation_state, (updatePlayer w).player.vel_x) =
      specDecisionTable w.pressed_A w.pressed_D w.pressed_S w.player.speed := by
  have hn : ¬ w.player.vel_y > 0 := not_lt.mpr h
  rcases w with ⟨p, t, a, d, s⟩
  simp only [] at hn
  cases a <;> cases d <;> cases s <;>
    simp [updatePlayer, integrate, collideFloor, chooseAnimation, specDecisionTable, hn] <;>
    split_ifs <;> norm_num <;> ring

/-- C3, witness: left and crouch held at the start state give `PLAYER_CROUCH_WALK` at half
the speed to the left. -/
theorem C3_decision_table_witness :
    crouchLeftWorld.player.vel_y ≤ 0 ∧
      ((updatePlayer crouchLeftWorld).player.animation_state,
          (updatePlayer crouchLeftWorld).player.vel_x) =
        (SpriteID.PLAYER_CROUCH_WALK, -crouchLeftWorld.player.speed / 2) :=
  ⟨by decide, C3_decision_table crouchLeftWorld (by decide)⟩

/-- C4: with no key held, `vel_y ≤ 0` and the player strictly above the tile top, one
`updatePlayer` tick gives `vel_y + acc_y` for the velocity, `y + vel_y + acc_y` for the
height (the new velocity is the one added), leaves `x` alone and sets `PLAYER_IDLE`. -/
theorem C4_free_fall (w : World)
    (hA : w.pressed_A = false) (hD : w.pressed_D = false) (hS : w.pressed_S = false)
    (hv : w.player.vel_y ≤ 0) (hy : w.player.y > w.tile.y + w.tile.height) :
    (updatePlayer w).player.vel_y = w.player.vel_y + w.player.acc_y ∧
      (updatePlayer w).player.y = w.player.y + w.player.vel_y + w.player.acc_y ∧
      (updatePlayer w).player.x = w.player.x ∧
      (updatePlayer w).player.animation_state = SpriteID.PLAYER_IDLE := by
  have hn : ¬ w.player.vel_y > 0 := not_lt.mpr hv
  have hy2 : ¬ w.player.y ≤ w.tile.y + w.tile.height := not_le.mpr hy
  simp [updatePlayer, integrate, collideFloor, chooseAnimation, hA, hD, hS, hn, hy2]
  ring

/-- C4, witness: the start state of the program gives `vel_y = -0.001`,
`position.y = -0.501`, `position.x = -0.5` and `PLAYER_IDLE` after one tick. -/
theorem C4_free_fall_witness :
    (initialWorld.pressed_A = false ∧ initialWorld.pressed_D = false ∧
      initialWorld.pressed_S = false ∧ initialWorld.player.vel_y ≤ 0 ∧
      initialWorld.player.y > initialWorld.tile.y + initialWorld.tile.height) ∧
    ((updatePlayer initialWorld).player.vel_y = -0.001 ∧
      (updatePlayer initialWorld).player.y = -0.501 ∧
      (updatePlayer initialWorld).player.x = -0.5 ∧
      (updatePlayer initialWorld).player.animation_state = SpriteID.PLAYER_IDLE) := by
  have hy : initialWorld.player.y > initialWorld.tile.y + initialWorld.tile.height := by
    norm_num [initialWorld]
  have h := C4_free_fall initialWorld rfl rfl rfl (by decide) hy
  refine ⟨⟨rfl, rfl, rfl, by decide, hy⟩,
    h.1.trans ?_, h.2.1.trans ?_, h.2.2.1.trans ?_, h.2.2.2⟩ <;>
    norm_num [initialWorld]

/-- C5: a release of the jump key adds exactly `0.05` to `vel_y` and changes nothing else in
the state, for every state; a press or a repeat of the jump key changes nothing at all. -/
theorem C5_jump_trigger (w : World) :
    keyCallback w GLFW_KEY_SPACE GLFW_RELEASE =
        { w with player := { w.player with vel_y := w.player.vel_y + 0.05 } } ∧
      keyCallback w GLFW_KEY_SPACE GLFW_PRESS = w ∧
      keyCallback w GLFW_KEY_SPACE GLFW_REPEAT = w := by
  refine ⟨?_, ?_, ?_⟩ <;>
    simp [keyCallback, GLFW_KEY_SPACE, GLFW_KEY_A, GLFW_KEY_D, GLFW_KEY_S, GLFW_RELEASE,
      GLFW_PRESS, GLFW_REPEAT]

/-- C6: a press of the left key sets `is_facing_right` to false and a press of the right key
sets it to true; a release of any key, any event of the crouch or the jump key, a repeat of
any key, and a tick of `updatePlayer` leave it as it was. -/
theorem C6_facing_press_edges (w : World) :
    (keyCallback w GLFW_KEY_A GLFW_PRESS).player.is_facing_right = false ∧
      (keyCallback w GLFW_KEY_D GLFW_PRESS).player.is_facing_right = true ∧
      (∀ key : Int,
        (keyCallback w key GLFW_RELEASE).player.is_facing_right = w.player.is_facing_right) ∧
      (∀ action : Int,
        (keyCallback w GLFW_KEY_S action).player.is_facing_right = w.player.is_facing_right) ∧
      (∀ action : Int,
        (keyCallback w GLFW_KEY_SPACE action).player.is_facing_right =
          w.player.is_facing_right) ∧
      (∀ key : Int,
        (keyCallback w key GLFW_REPEAT).player.is_facing_right = w.player.is_facing_right) ∧
      (updatePlayer w).player.is_facing_right = w.player.is_facing_right := by
  refine ⟨?_, ?_, ?_, ?_, ?_, ?_, ?_⟩
  · simp [keyCallback, GLFW_KEY_A, GLFW_RELEASE, GLFW_PRESS]
  · simp [keyCallback, GLFW_KEY_A, GLFW_KEY_D, GLFW_RELEASE, GLFW_PRESS]
  · intro key
    unfold keyCallback
    simp only [↓reduceIte]
    split_ifs <;> rfl
  · intro action
    unfold keyCallback
    split_ifs <;> first | rfl | simp_all [GLFW_KEY_A, GLFW_KEY_D, GLFW_KEY_S]
  · intro action
    unfold keyCallback
    split_ifs <;> first | rfl | simp_all [GLFW_KEY_A, GLFW_KEY_D, GLFW_KEY_S, GLFW_KEY_SPACE]
  · intro key
    unfold keyCallback
    split_ifs <;> first | rfl | simp_all [GLFW_RELEASE, GLFW_PRESS, GLFW_REPEAT]
  · unfold updatePlayer integrate collideFloor
    simp only []
    split_ifs <;> simp [chooseAnimation_facing]

theorem toU32_natCast (n : Nat) (h : n < 2 ^ 32) : toU32 (n : Int) = n := by
  unfold toU32
  have h2 : ((n : Int) % 2 ^ 32) = (n : Int) := by
    apply Int.emod_eq_of_lt (Int.natCast_nonneg n)
    exact_mod_cast h
  rw [h2]
  exact Int.toNat_natCast n

/-- No wrap-around in the two `GLuint` products of `drawPlayer` when the larger one fits. -/
theorem u32_products (frame n : Nat) (h : (frame + 1) * n < 2 ^ 32) :
    (frame + 1) % 2 ^ 32 * toU32 (n : Int) % 2 ^ 32 = (frame + 1) * n ∧
      frame % 2 ^ 32 * toU32 (n : Int) % 2 ^ 32 = frame * n := by
  rcases Nat.eq_zero_or_pos n with hn | hn
  · subst hn
    simp [toU32]
  · have h1 : frame + 1 ≤ (frame + 1) * n := Nat.le_mul_of_pos_right _ hn
    have h2 : n ≤ (frame + 1) * n := Nat.le_mul_of_pos_left _ (Nat.succ_pos frame)
    have h3 : frame * n ≤ (frame + 1) * n := Nat.mul_le_mul_right n (Nat.le_succ frame)
    rw [toU32_natCast n (lt_of_le_of_lt h2 h), Nat.mod_eq_of_lt (lt_of_le_of_lt h1 h),
      Nat.mod_eq_of_lt (lt_of_le_of_lt (Nat.le_succ frame) (lt_of_le_of_lt h1 h)),
      Nat.mod_eq_of_lt h, Nat.mod_eq_of_lt (lt_of_le_of_lt h3 h)]
    exact ⟨rfl, rfl⟩

/-- C7: the vertex array `drawPlayer` computes for a player facing left is the one it
computes for a player facing right with the U of the right vertices and the U of the left
vertices exchanged: the four positions, the four V coordinates and the order of the
vertices are the same, and each pair of vertices on one side shares one U. -/
theorem C7_mirror (sprite : Sprite) (x y : ℚ) (frame : Nat) (img_width img_height : Int) :
    drawPlayer sprite x y frame false img_width img_height =
        specMirrorU (drawPlayer sprite x y frame true img_width img_height) ∧
      (∀ i : Nat,
        vertexPos (drawPlayer sprite x y frame false img_width img_height) i =
            vertexPos (drawPlayer sprite x y frame true img_width img_height) i ∧
          vertexV (drawPlayer sprite x y frame false img_width img_height) i =
            vertexV (drawPlayer sprite x y frame true img_width img_height) i) ∧
      vertexU (drawPlayer sprite x y frame false img_width img_height) 0 =
        vertexU (drawPlayer sprite x y frame true img_width img_height) 3 ∧
      vertexU (drawPlayer sprite x y frame false img_width img_height) 1 =
        vertexU (drawPlayer sprite x y frame true img_width img_height) 2 ∧
      vertexU (drawPlayer sprite x y frame false img_width img_height) 2 =
        vertexU (drawPlayer sprite x y frame true img_width img_height) 1 ∧
      vertexU (drawPlayer sprite x y frame false img_width img_height) 3 =
        vertexU (drawPlayer sprite x y frame true img_width img_height) 0 ∧
      vertexU (drawPlayer sprite x y frame true img_width img_height) 0 =
        vertexU (drawPlayer sprite x y frame true img_width img_height) 1 ∧
      vertexU (drawPlayer sprite x y frame true img_width img_height) 2 =
        vertexU (drawPlayer sprite x y frame true img_width img_height) 3 := by
  refine ⟨rfl, ?_, rfl, rfl, rfl, rfl, rfl, rfl⟩
  intro i
  rcases i with _ | _ | _ | _ | _ | i <;> exact ⟨rfl, rfl⟩

/-- An integer is its own rounding. -/
theorem roundHalfEven_intCast (n : Int) : roundHalfEven (n : ℚ) = n := by
  simp [roundHalfEven]

/-- Rounding to an integer moves a number by at most one half. -/
theorem abs_roundHalfEven_sub_le (q : ℚ) : |(roundHalfEven q : ℚ) - q| ≤ 1 / 2 := by
  have h1 : (⌊q⌋ : ℚ) ≤ q := Int.floor_le q
  have h2 : q < (⌊q⌋ : ℚ) + 1 := Int.lt_floor_add_one q
  unfold roundHalfEven
  split_ifs with a b c
  · rw [abs_le]; constructor <;> linarith
  · rw [abs_le]; push_cast; constructor <;> linarith
  · rw [abs_le]; constructor <;> linarith
  · rw [abs_le]; push_cast; constructor <;> linarith

/-- The integer strictly nearer than one half is the rounding. -/
theorem roundHalfEven_eq_of_near (q : ℚ) (m : Int) (h : |q - m| < 1 / 2) :
    roundHalfEven q = m := by
  rw [abs_lt] at h
  obtain ⟨h1, h2⟩ := h
  unfold roundHalfEven
  rcases le_or_lt (m : ℚ) q with hc | hc
  · have hf : ⌊q⌋ = m := by
      rw [Int.floor_eq_iff]
      constructor <;> linarith
    rw [hf, if_pos (by linarith)]
  · have hf : ⌊q⌋ = m - 1 := by
      rw [Int.floor_eq_iff]
      push_cast
      constructor <;> linarith
    rw [hf]
    push_cast
    rw [if_neg (by linarith), if_pos (by linarith)]
    ring

/-- The binary exponent of `r` is the `e` with `2 ^ e ≤ r < 2 ^ (e + 1)`. -/
theorem log2_eq_of_bounds (r : ℚ) (e : Int) (h1 : (2 : ℚ) ^ e ≤ r) (h2 : r < (2 : ℚ) ^ (e + 1)) :
    Int.log 2 r = e := by
  have hr : 0 < r := lt_of_lt_of_le (zpow_pos (by norm_num) e) h1
  have hb : 1 < (2 : ℕ) := by norm_num
  have ha : e ≤ Int.log 2 r := (Int.zpow_le_iff_le_log hb hr).mp (by exact_mod_cast h1)
  have hc : Int.log 2 r < e + 1 := (Int.lt_zpow_iff_log_lt hb hr).mp (by exact_mod_cast h2)
  omega

/-- Evaluation of `roundF32` from the binary exponent and the nearest significand. -/
theorem roundF32_eval (q : ℚ) (e m : Int) (h1 : (2 : ℚ) ^ e ≤ |q|) (h2 : |q| < (2 : ℚ) ^ (e + 1))
    (hm : |q / 2 ^ (e - 23) - m| < 1 / 2) : roundF32 q = (m : ℚ) * 2 ^ (e - 23) := by
  have hq : q ≠ 0 := by
    intro h0
    rw [h0, abs_zero] at h1
    exact absurd h1 (not_le.mpr (zpow_pos (by norm_num) e))
  unfold roundF32
  rw [if_neg hq, log2_eq_of_bounds |q| e h1 h2, roundHalfEven_eq_of_near _ m hm]

/-- A significand of at most 24 bits times a power of two is a binary32 value. -/
theorem roundF32_dyadic (m k : Int) (hm : m.natAbs < 2 ^ 24) :
    roundF32 ((m : ℚ) * 2 ^ k) = (m : ℚ) * 2 ^ k := by
  rcases eq_or_ne m 0 with h0 | h0
  · subst h0
    simp [roundF32]
  · have hpos : m.natAbs ≠ 0 := Int.natAbs_ne_zero.mpr h0
    have hlo : 2 ^ Nat.log 2 m.natAbs ≤ m.natAbs := Nat.pow_log_le_self 2 hpos
    have hhi : m.natAbs < 2 ^ (Nat.log 2 m.natAbs + 1) :=
      Nat.lt_pow_succ_log_self (by norm_num) m.natAbs
    have hj : Nat.log 2 m.natAbs < 24 := by
      by_contra hcon
      have : 2 ^ 24 ≤ 2 ^ Nat.log 2 m.natAbs :=
        Nat.pow_le_pow_right (by norm_num) (not_lt.mp hcon)
      omega
    generalize Nat.log 2 m.natAbs = j at hlo hhi hj
    have habs : |(m : ℚ)| = (m.natAbs : ℚ) := by
      rw [Nat.cast_natAbs, Int.cast_abs]
    have h2k : (0 : ℚ) < 2 ^ k := zpow_pos (by norm_num) k
    have hq : |(m : ℚ) * 2 ^ k| = (m.natAbs : ℚ) * 2 ^ k := by
      rw [abs_mul, habs, abs_of_pos h2k]
    have hlo2 : (2 : ℚ) ^ ((j : Int) + k) ≤ |(m : ℚ) * 2 ^ k| := by
      rw [hq, zpow_add₀ (by norm_num), zpow_natCast]
      apply mul_le_mul_of_nonneg_right _ h2k.le
      exact_mod_cast hlo
    have hhi2 : |(m : ℚ) * 2 ^ k| < (2 : ℚ) ^ ((j : Int) + k + 1) := by
      rw [hq, show (j : Int) + k + 1 = ((j + 1 : ℕ) : Int) + k by push_cast; ring,
        zpow_add₀ (by norm_num), zpow_natCast]
      apply mul_lt_mul_of_pos_right _ h2k
      exact_mod_cast hhi
    have hdiv : (m : ℚ) * 2 ^ k / 2 ^ ((j : Int) + k - 23) = ((m * 2 ^ (23 - j) : Int) : ℚ) := by
      push_cast
      rw [div_eq_iff (zpow_ne_zero _ (by norm_num)), mul_assoc, ← zpow_natCast, ← zpow_add₀ (by norm_num)]
      congr 2
      omega
    rw [roundF32_eval _ ((j : Int) + k) (m * 2 ^ (23 - j)) hlo2 hhi2 (by rw [hdiv]; simp), ← hdiv]
    exact div_mul_cancel₀ _ (zpow_ne_zero _ (by norm_num))

/-- Naturals below `2 ^ 24` are binary32 values. -/
theorem roundF32_natCast (n : Nat) (h : n < 2 ^ 24) : roundF32 (n : ℚ) = n := by
  have := roundF32_dyadic (n : Int) 0 (by simpa using h)
  simpa using this

/-- The relative error of one rounding is at most `2 ^ (-24)`. -/
theorem roundF32_error (q : ℚ) : |roundF32 q - q| ≤ 2 ^ (-24 : Int) * |q| := by
  rcases eq_or_ne q 0 with h0 | h0
  · subst h0
    simp [roundF32]
  · have hq : 0 < |q| := abs_pos.mpr h0
    have hlog : ((2 : ℕ) : ℚ) ^ Int.log 2 |q| ≤ |q| := Int.zpow_log_le_self (by norm_num) hq
    have hu : (0 : ℚ) < 2 ^ (Int.log 2 |q| - 23) := zpow_pos (by norm_num) _
    unfold roundF32
    rw [if_neg h0]
    have hr := abs_roundHalfEven_sub_le (q / 2 ^ (Int.log 2 |q| - 23))
    have heq : (roundHalfEven (q / 2 ^ (Int.log 2 |q| - 23)) : ℚ) * 2 ^ (Int.log 2 |q| - 23) - q
        = ((roundHalfEven (q / 2 ^ (Int.log 2 |q| - 23)) : ℚ) - q / 2 ^ (Int.log 2 |q| - 23))
          * 2 ^ (Int.log 2 |q| - 23) := by
      field_simp
    rw [heq, abs_mul, abs_of_pos hu]
    calc |(roundHalfEven (q / 2 ^ (Int.log 2 |q| - 23)) : ℚ) - q / 2 ^ (Int.log 2 |q| - 23)|
          * 2 ^ (Int.log 2 |q| - 23)
        ≤ 1 / 2 * 2 ^ (Int.log 2 |q| - 23) := mul_le_mul_of_nonneg_right hr hu.le
      _ = 2 ^ (-24 : Int) * (2 : ℚ) ^ Int.log 2 |q| := by
        rw [show Int.log 2 |q| - 23 = Int.log 2 |q| + (-23) by ring, zpow_add₀ (by norm_num)]
        norm_num
        ring
      _ ≤ 2 ^ (-24 : Int) * |q| := by
        apply mul_le_mul_of_nonneg_left _ (by positivity)
        exact_mod_cast hlog

/-- The U entry of the bottom-left vertex for a player facing right is `left_x`. -/
theorem drawPlayer_left_u (sprite : Sprite) (x y : ℚ) (frame : Nat)
    (img_width img_height : Int) :
    vertexU (drawPlayer sprite x y frame true img_width img_height) 2 =
      f32div (f32add (intToFloat sprite.x)
        (uintToFloat (frame % 2 ^ 32 * toU32 sprite.width % 2 ^ 32))) (intToFloat img_width) :=
  rfl

/-- The U entry of the top-right vertex for a player facing right is `right_x`. -/
theorem drawPlayer_right_u (sprite : Sprite) (x y : ℚ) (frame : Nat)
    (img_width img_height : Int) :
    vertexU (drawPlayer sprite x y frame true img_width img_height) 0 =
      f32div (f32add (intToFloat sprite.x)
        (uintToFloat ((frame + 1) % 2 ^ 32 * toU32 sprite.width % 2 ^ 32)))
        (intToFloat img_width) :=
  rfl

/-- Where binary32 holds every integer involved, the conversions and the sum of `left_x` and
`right_x` are exact and the division is the one rounding. -/
theorem texU_in_range (sprite : Sprite) (frame : Nat) (img_width : Int)
    (hx : 0 ≤ sprite.x) (hw : 0 ≤ sprite.width)
    (hfit : sprite.x + ((frame : Int) + 1) * sprite.width < 2 ^ 24)
    (hsheet : 0 < img_width) (hsheet2 : img_width < 2 ^ 24) :
    f32div (f32add (intToFloat sprite.x)
        (uintToFloat (frame % 2 ^ 32 * toU32 sprite.width % 2 ^ 32))) (intToFloat img_width) =
      roundF32 (((sprite.x : ℚ) + (frame : ℚ) * (sprite.width : ℚ)) / (img_width : ℚ)) ∧
    f32div (f32add (intToFloat sprite.x)
        (uintToFloat ((frame + 1) % 2 ^ 32 * toU32 sprite.width % 2 ^ 32)))
        (intToFloat img_width) =
      roundF32 (((sprite.x : ℚ) + ((frame : ℚ) + 1) * (sprite.width : ℚ)) / (img_width : ℚ)) := by
  obtain ⟨a, ha⟩ := Int.eq_ofNat_of_zero_le hx
  obtain ⟨n, hn⟩ := Int.eq_ofNat_of_zero_le hw
  obtain ⟨v, hv⟩ := Int.eq_ofNat_of_zero_le hsheet.le
  rw [ha, hn] at hfit
  rw [hv] at hsheet2
  have hfitN : a + (frame + 1) * n < 2 ^ 24 := by exact_mod_cast hfit
  have hvN : v < 2 ^ 24 := by exact_mod_cast hsheet2
  have hle : frame * n ≤ (frame + 1) * n := Nat.mul_le_mul_right n (Nat.le_succ frame)
  have h32 : (frame + 1) * n < 2 ^ 32 := by
    have : (2 : ℕ) ^ 24 < 2 ^ 32 := by norm_num
    omega
  obtain ⟨h1, h2⟩ := u32_products frame n h32
  have e1 : roundF32 ((a : ℕ) : ℚ) = a := roundF32_natCast a (by omega)
  have e2 : roundF32 ((frame * n : ℕ) : ℚ) = (frame * n : ℕ) := roundF32_natCast _ (by omega)
  have e3 : roundF32 (((frame + 1) * n : ℕ) : ℚ) = ((frame + 1) * n : ℕ) :=
    roundF32_natCast _ (by omega)
  have e4 : roundF32 ((a : ℚ) + ((frame * n : ℕ) : ℚ)) = (a : ℚ) + ((frame * n : ℕ) : ℚ) := by
    rw [← Nat.cast_add]
    exact roundF32_natCast _ (by omega)
  have e5 : roundF32 ((a : ℚ) + (((frame + 1) * n : ℕ) : ℚ)) =
      (a : ℚ) + (((frame + 1) * n : ℕ) : ℚ) := by
    rw [← Nat.cast_add]
    exact roundF32_natCast _ (by omega)
  have e6 : roundF32 ((v : ℕ) : ℚ) = v := roundF32_natCast v hvN
  simp only [f32div, f32add, intToFloat, uintToFloat, ha, hn, hv, h1, h2, Int.cast_natCast,
    e1, e2, e3, e4, e5, e6]
  constructor <;> push_cast <;> rfl

/-- A natural below `2 ^ 24` divided by a power of two is a binary32 value. -/
theorem roundF32_div_pow2 (m k : Nat) (h : m < 2 ^ 24) :
    roundF32 ((m : ℚ) / 2 ^ k) = (m : ℚ) / 2 ^ k := by
  have hd := roundF32_dyadic (m : Int) (-(k : Int)) (by simpa using h)
  simpa [zpow_neg, div_eq_mul_inv] using hd

/-- C8 (as the code has it): for a sprite with `rect.x ≥ 0` and `width ≥ 0`, a frame index
`f` with `rect.x + (f + 1) * width < 2 ^ 24` and a sheet width `0 < W < 2 ^ 24` (every atlas
sprite with `f < num_frames` is such), the player facing right, the U of the two left
vertices is the `float` nearest to `(rect.x + f * width) / W` and the U of the two right
vertices the `float` nearest to `(rect.x + (f + 1) * width) / W`. The left U at frame `f`
minus the left U at frame `0` is `f * width / W` up to the two roundings, at most
`2 ^ (-24) * (2 * rect.x + f * width) / W` away, and when `W` is a power of two the U values
are the exact quotients and the difference is exactly `f * width / W`. -/
theorem C8_frame_tiling (sprite : Sprite) (x y : ℚ) (frame : Nat) (img_width img_height : Int)
    (hx : 0 ≤ sprite.x) (hw : 0 ≤ sprite.width)
    (hfit : sprite.x + ((frame : Int) + 1) * sprite.width < 2 ^ 24)
    (hsheet : 0 < img_width) (hsheet2 : img_width < 2 ^ 24) :
    (vertexU (drawPlayer sprite x y frame true img_width img_height) 2 =
        roundF32 (((sprite.x : ℚ) + (frame : ℚ) * (sprite.width : ℚ)) / (img_width : ℚ)) ∧
      vertexU (drawPlayer sprite x y frame true img_width img_height) 3 =
        roundF32 (((sprite.x : ℚ) + (frame : ℚ) * (sprite.width : ℚ)) / (img_width : ℚ)) ∧
      vertexU (drawPlayer sprite x y frame true img_width img_height) 0 =
        roundF32 (((sprite.x : ℚ) + ((frame : ℚ) + 1) * (sprite.width : ℚ)) /
          (img_width : ℚ)) ∧
      vertexU (drawPlayer sprite x y frame true img_width img_height) 1 =
        roundF32 (((sprite.x : ℚ) + ((frame : ℚ) + 1) * (sprite.width : ℚ)) /
          (img_width : ℚ))) ∧
    |vertexU (drawPlayer sprite x y frame true img_width img_height) 2 -
          vertexU (drawPlayer sprite x y 0 true img_width img_height) 2 -
          (frame : ℚ) * (sprite.width : ℚ) / (img_width : ℚ)| ≤
        2 ^ (-24 : Int) *
          ((2 * (sprite.x : ℚ) + (frame : ℚ) * (sprite.width : ℚ)) / (img_width : ℚ)) ∧
    (∀ k : Nat, img_width = 2 ^ k →
      vertexU (drawPlayer sprite x y frame true img_width img_height) 2 =
          ((sprite.x : ℚ) + (frame : ℚ) * (sprite.width : ℚ)) / (img_width : ℚ) ∧
        vertexU (drawPlayer sprite x y frame true img_width img_height) 0 =
          ((sprite.x : ℚ) + ((frame : ℚ) + 1) * (sprite.width : ℚ)) / (img_width : ℚ) ∧
        vertexU (drawPlayer sprite x y frame true img_width img_height) 2 -
            vertexU (drawPlayer sprite x y 0 true img_width img_height) 2 =
          (frame : ℚ) * (sprite.width : ℚ) / (img_width : ℚ)) := by
  have hfw : (0 : Int) ≤ (frame : Int) * sprite.width :=
    mul_nonneg (Int.natCast_nonneg frame) hw
  have hfit0 : sprite.x + (((0 : Nat) : Int) + 1) * sprite.width < 2 ^ 24 := by
    push_cast
    linarith
  obtain ⟨hL, hR⟩ := texU_in_range sprite frame img_width hx hw hfit hsheet hsheet2
  obtain ⟨hL0, _⟩ := texU_in_range sprite 0 img_width hx hw hfit0 hsheet hsheet2
  have hU2 := (drawPlayer_left_u sprite x y frame img_width img_height).trans hL
  have hU0 := (drawPlayer_right_u sprite x y frame img_width img_height).trans hR
  have hZ := (drawPlayer_left_u sprite x y 0 img_width img_height).trans hL0
  have hU3 : vertexU (drawPlayer sprite x y frame true img_width img_height) 3 =
      vertexU (drawPlayer sprite x y frame true img_width img_height) 2 := rfl
  have hU1 : vertexU (drawPlayer sprite x y frame true img_width img_height) 1 =
      vertexU (drawPlayer sprite x y frame true img_width img_height) 0 := rfl
  have hWpos : (0 : ℚ) < (img_width : ℚ) := by exact_mod_cast hsheet
  have hxq : (0 : ℚ) ≤ (sprite.x : ℚ) := by exact_mod_cast hx
  have hfwq : (0 : ℚ) ≤ (frame : ℚ) * (sprite.width : ℚ) := by exact_mod_cast hfw
  refine ⟨⟨hU2, hU3.trans hU2, hU0, hU1.trans hU0⟩, ?_, ?_⟩
  · rw [hU2, hZ]
    have ef := roundF32_error (((sprite.x : ℚ) + (frame : ℚ) * (sprite.width : ℚ)) /
      (img_width : ℚ))
    have ez := roundF32_error (((sprite.x : ℚ) + ((0 : Nat) : ℚ) * (sprite.width : ℚ)) /
      (img_width : ℚ))
    have qf : (0 : ℚ) ≤ ((sprite.x : ℚ) + (frame : ℚ) * (sprite.width : ℚ)) /
        (img_width : ℚ) := div_nonneg (by linarith) hWpos.le
    have qz : (0 : ℚ) ≤ ((sprite.x : ℚ) + ((0 : Nat) : ℚ) * (sprite.width : ℚ)) /
        (img_width : ℚ) := div_nonneg (by simpa using hxq) hWpos.le
    rw [abs_of_nonneg qf] at ef
    rw [abs_of_nonneg qz] at ez
    rw [abs_le] at ef ez ⊢
    have hsplit : (2 * (sprite.x : ℚ) + (frame : ℚ) * (sprite.width : ℚ)) / (img_width : ℚ) =
        ((sprite.x : ℚ) + (frame : ℚ) * (sprite.width : ℚ)) / (img_width : ℚ) +
          ((sprite.x : ℚ) + ((0 : Nat) : ℚ) * (sprite.width : ℚ)) / (img_width : ℚ) := by
      push_cast
      ring
    have hdiff : (frame : ℚ) * (sprite.width : ℚ) / (img_width : ℚ) =
        ((sprite.x : ℚ) + (frame : ℚ) * (sprite.width : ℚ)) / (img_width : ℚ) -
          ((sprite.x : ℚ) + ((0 : Nat) : ℚ) * (sprite.width : ℚ)) / (img_width : ℚ) := by
      push_cast
      ring
    rw [hsplit, hdiff]
    constructor <;> linarith [ef.1, ef.2, ez.1, ez.2]
  · intro k hk
    obtain ⟨a, ha⟩ := Int.eq_ofNat_of_zero_le hx
    obtain ⟨n, hn⟩ := Int.eq_ofNat_of_zero_le hw
    have hfitN : a + (frame + 1) * n < 2 ^ 24 := by
      rw [ha, hn] at hfit
      exact_mod_cast hfit
    have hle : frame * n ≤ (frame + 1) * n := Nat.mul_le_mul_right n (Nat.le_succ frame)
    have hle0 : 0 * n ≤ (frame + 1) * n := by simp
    have e2 := roundF32_div_pow2 (a + frame * n) k (by omega)
    have e0 := roundF32_div_pow2 (a + (frame + 1) * n) k (by omega)
    have ez := roundF32_div_pow2 (a + 0 * n) k (by omega)
    have c2 : vertexU (drawPlayer sprite x y frame true img_width img_height) 2 =
        ((sprite.x : ℚ) + (frame : ℚ) * (sprite.width : ℚ)) / (img_width : ℚ) := by
      rw [hU2, ha, hn, hk]
      push_cast at e2 ⊢
      exact e2
    have c0 : vertexU (drawPlayer sprite x y frame true img_width img_height) 0 =
        ((sprite.x : ℚ) + ((frame : ℚ) + 1) * (sprite.width : ℚ)) / (img_width : ℚ) := by
      rw [hU0, ha, hn, hk]
      push_cast at e0 ⊢
      exact e0
    have cz : vertexU (drawPlayer sprite x y 0 true img_width img_height) 2 =
        ((sprite.x : ℚ) + ((0 : Nat) : ℚ) * (sprite.width : ℚ)) / (img_width : ℚ) := by
      rw [hZ, ha, hn, hk]
      push_cast at ez ⊢
      exact ez
    refine ⟨c2, c0, ?_⟩
    rw [c2, cz]
    push_cast
    ring

/-- C8, witness: the idle sprite (`width = 120`, ten frames) at frame `3` on a sheet `2048`
wide, a power of two: the left U is `361 / 2048`, the right U `481 / 2048`, and the left U
lies exactly `3 * 120 / 2048` to the right of the left U of frame `0`. -/
theorem C8_frame_tiling_witness :
    vertexU (drawPlayer (getSprite SpriteID.PLAYER_IDLE) 0 0 3 true 2048 1024) 2 = 361 / 2048 ∧
      vertexU (drawPlayer (getSprite SpriteID.PLAYER_IDLE) 0 0 3 true 2048 1024) 0 =
        481 / 2048 ∧
      vertexU (drawPlayer (getSprite SpriteID.PLAYER_IDLE) 0 0 3 true 2048 1024) 2 -
          vertexU (drawPlayer (getSprite SpriteID.PLAYER_IDLE) 0 0 0 true 2048 1024) 2 =
        3 * 120 / 2048 := by
  have h := C8_frame_tiling (getSprite SpriteID.PLAYER_IDLE) 0 0 3 2048 1024
    (by decide) (by decide) (by decide) (by decide) (by decide)
  have hp := h.2.2 11 (by norm_num)
  refine ⟨hp.1.trans ?_, hp.2.1.trans ?_, hp.2.2.trans ?_⟩ <;> norm_num [getSprite]

/-- C8, counterexample to the claim as stated: for the idle sprite (`x = 1`, `width = 120`)
at frame `3`, an index the main loop passes, on a sheet `1500` wide, the left U is the
`float` `16150867 / 2 ^ 26`, not `361 / 1500`, the left U at frame `0` is the `float`
`5726623 / 2 ^ 33`, and their difference is not `3 * 120 / 1500`, neither taken exactly nor
with the difference and `3 * 120 / 1500` both rounded to `float`. -/
theorem C8_counterexample :
    vertexU (drawPlayer (getSprite SpriteID.PLAYER_IDLE) 0 0 3 true 1500 1000) 2 =
        16150867 / 67108864 ∧
      vertexU (drawPlayer (getSprite SpriteID.PLAYER_IDLE) 0 0 0 true 1500 1000) 2 =
        5726623 / 8589934592 ∧
      vertexU (drawPlayer (getSprite SpriteID.PLAYER_IDLE) 0 0 3 true 1500 1000) 2 ≠
        (((getSprite SpriteID.PLAYER_IDLE).x : ℚ) +
          3 * ((getSprite SpriteID.PLAYER_IDLE).width : ℚ)) / 1500 ∧
      vertexU (drawPlayer (getSprite SpriteID.PLAYER_IDLE) 0 0 3 true 1500 1000) 2 -
          vertexU (drawPlayer (getSprite SpriteID.PLAYER_IDLE) 0 0 0 true 1500 1000) 2 ≠
        3 * ((getSprite SpriteID.PLAYER_IDLE).width : ℚ) / 1500 ∧
      f32sub (vertexU (drawPlayer (getSprite SpriteID.PLAYER_IDLE) 0 0 3 true 1500 1000) 2)
          (vertexU (drawPlayer (getSprite SpriteID.PLAYER_IDLE) 0 0 0 true 1500 1000) 2) ≠
        roundF32 (3 * ((getSprite SpriteID.PLAYER_IDLE).width : ℚ) / 1500) := by
  have r3 : roundF32 (361 / 1500) = 16150867 / 67108864 := by
    rw [roundF32_eval (361 / 1500) (-3) 16150867 (by norm_num [abs_of_pos])
      (by norm_num [abs_of_pos]) (by norm_num [abs_lt])]
    norm_num
  have r0 : roundF32 (1 / 1500) = 5726623 / 8589934592 := by
    rw [roundF32_eval (1 / 1500) (-11) 11453246 (by norm_num [abs_of_pos])
      (by norm_num [abs_of_pos]) (by norm_num [abs_lt])]
    norm_num
  have rd : roundF32 (16150867 / 67108864 - 5726623 / 8589934592) = 16106128 / 67108864 := by
    rw [roundF32_eval _ (-3) 16106128 (by norm_num [abs_of_pos])
      (by norm_num [abs_of_pos]) (by norm_num [abs_lt])]
    norm_num
  have rq : roundF32 (3 * 120 / 1500) = 16106127 / 67108864 := by
    rw [roundF32_eval _ (-3) 16106127 (by norm_num [abs_of_pos])
      (by norm_num [abs_of_pos]) (by norm_num [abs_lt])]
    norm_num
  have h3 := (drawPlayer_left_u (getSprite SpriteID.PLAYER_IDLE) 0 0 3 1500 1000).trans
    (texU_in_range (getSprite SpriteID.PLAYER_IDLE) 3 1500
      (by decide) (by decide) (by decide) (by decide) (by decide)).1
  have h0 := (drawPlayer_left_u (getSprite SpriteID.PLAYER_IDLE) 0 0 0 1500 1000).trans
    (texU_in_range (getSprite SpriteID.PLAYER_IDLE) 0 1500
      (by decide) (by decide) (by decide) (by decide) (by decide)).1
  have a3 : (((getSprite SpriteID.PLAYER_IDLE).x : ℚ) +
      ((3 : Nat) : ℚ) * ((getSprite SpriteID.PLAYER_IDLE).width : ℚ)) / ((1500 : Int) : ℚ) =
      361 / 1500 := by norm_num [getSprite]
  have a0 : (((getSprite SpriteID.PLAYER_IDLE).x : ℚ) +
      ((0 : Nat) : ℚ) * ((getSprite SpriteID.PLAYER_IDLE).width : ℚ)) / ((1500 : Int) : ℚ) =
      1 / 1500 := by norm_num [getSprite]
  rw [a3, r3] at h3
  rw [a0, r0] at h0
  have hw : ((getSprite SpriteID.PLAYER_IDLE).width : ℚ) = 120 := by norm_num [getSprite]
  have hx : ((getSprite SpriteID.PLAYER_IDLE).x : ℚ) = 1 := by norm_num [getSprite]
  rw [h3, h0, hw, hx, f32sub, rd, rq]
  norm_num

/-- C9: for each of the six `SpriteID` values `getSprite` returns a sprite with
`width > 0`, `height > 0` and `num_frames ≥ 1`, and the frame index of the main loop is
defined for it (the divisor is not zero) and less than `num_frames`, whatever the time. -/
theorem C9_atlas_total (id : SpriteID) :
    0 < (getSprite id).width ∧ 0 < (getSprite id).height ∧ 1 ≤ (getSprite id).num_frames ∧
      toU32 (getSprite id).num_frames ≠ 0 ∧
      ∀ t : Nat, ∃ f : Nat,
        frameIndex t (getSprite id) = some f ∧ (f : Int) < (getSprite id).num_frames := by
  have key : ∀ (s : Sprite) (n : Nat), s.num_frames = (n : Int) → 0 < n → n < 2 ^ 32 →
      toU32 s.num_frames ≠ 0 ∧
        ∀ t : Nat, ∃ f : Nat, frameIndex t s = some f ∧ (f : Int) < s.num_frames := by
    intro s n hs hpos hlt
    have hu : toU32 s.num_frames = n := by rw [hs]; exact toU32_natCast n hlt
    refine ⟨by rw [hu]; exact Nat.pos_iff_ne_zero.mp hpos, fun t => ?_⟩
    refine ⟨t % 2 ^ 32 % n, ?_, ?_⟩
    · simp [frameIndex, hu, Nat.pos_iff_ne_zero.mp hpos]
    · rw [hs]
      exact_mod_cast Nat.mod_lt _ hpos
  cases id
  · exact ⟨by decide, by decide, by decide, key _ 10 rfl (by decide) (by decide)⟩
  · exact ⟨by decide, by decide, by decide, key _ 10 rfl (by decide) (by decide)⟩
  · exact ⟨by decide, by decide, by decide, key _ 1 rfl (by decide) (by decide)⟩
  · exact ⟨by decide, by decide, by decide, key _ 8 rfl (by decide) (by decide)⟩
  · exact ⟨by decide, by decide, by decide, key _ 3 rfl (by decide) (by decide)⟩
  · exact ⟨by decide, by decide, by decide, key _ 1 rfl (by decide) (by decide)⟩

theorem updatePlayer_acc_y (w : World) : (updatePlayer w).player.acc_y = w.player.acc_y := by
  unfold updatePlayer integrate collideFloor
  simp only []
  split_ifs <;> simp [chooseAnimation_acc_y]

/-- A key event other than a release of the jump key leaves the tile and the vertical
motion of the player alone. -/
theorem keyCallback_vertical (w : World) (key action : Int)
    (h : ¬ isJumpRelease (key, action)) :
    (keyCallback w key action).tile = w.tile ∧
      (keyCallback w key action).player.acc_y = w.player.acc_y ∧
      (keyCallback w key action).player.vel_y = w.player.vel_y ∧
      (keyCallback w key action).player.y = w.player.y := by
  unfold isJumpRelease at h
  unfold keyCallback
  split_ifs with h1 h2 h3 h4 h5 h6 h7 h8 h9 h10 h11 <;>
    first
      | exact ⟨rfl, rfl, rfl, rfl⟩
      | exact absurd ⟨‹key = GLFW_KEY_SPACE›, ‹action = GLFW_RELEASE›⟩ h

theorem events_vertical (events : List (Int × Int)) (w : World)
    (h : ∀ e ∈ events, ¬ isJumpRelease e) :
    (events.foldl (fun s e => keyCallback s e.1 e.2) w).tile = w.tile ∧
      (events.foldl (fun s e => keyCallback s e.1 e.2) w).player.acc_y = w.player.acc_y ∧
      (events.foldl (fun s e => keyCallback s e.1 e.2) w).player.vel_y = w.player.vel_y ∧
      (events.foldl (fun s e => keyCallback s e.1 e.2) w).player.y = w.player.y := by
  induction events generalizing w with
  | nil => exact ⟨rfl, rfl, rfl, rfl⟩
  | cons e rest ih =>
    have he := keyCallback_vertical w e.1 e.2 (h e (List.mem_cons_self e rest))
    have hr := ih (keyCallback w e.1 e.2) (fun e2 h2 => h e2 (List.mem_cons_of_mem e h2))
    simp only [List.foldl_cons]
    exact ⟨hr.1.trans he.1, hr.2.1.trans he.2.1, hr.2.2.1.trans he.2.2.1,
      hr.2.2.2.trans he.2.2.2⟩

/-- One loop iteration without a jump release, started grounded, ends with `vel_y = acc_y`
and `y = tile.y + tile.height + acc_y`. -/
theorem loopIteration_grounded (w : World) (events : List (Int × Int))
    (h : ∀ e ∈ events, ¬ isJumpRelease e) (hg : grounded w) :
    (loopIteration w events).tile = w.tile ∧
      (loopIteration w events).player.acc_y = w.player.acc_y ∧
      (loopIteration w events).player.vel_y = w.player.acc_y ∧
      (loopIteration w events).player.y = w.tile.y + w.tile.height + w.player.acc_y := by
  have hu := updatePlayer_grounded w hg.1 hg.2
  have he := events_vertical events (updatePlayer w) h
  unfold loopIteration
  exact ⟨he.1, he.2.1.trans (updatePlayer_acc_y w), he.2.2.1.trans hu.1, he.2.2.2.trans hu.2⟩

theorem loopIteration_keeps_grounded (w : World) (events : List (Int × Int))
    (h : ∀ e ∈ events, ¬ isJumpRelease e) (hg : grounded w) (hacc : w.player.acc_y ≤ 0) :
    grounded (loopIteration w events) := by
  obtain ⟨h1, _, h3, h4⟩ := loopIteration_grounded w events h hg
  unfold grounded
  rw [h1, h3, h4]
  exact ⟨by linarith, hacc⟩

theorem runLoop_grounded (polled : List (List (Int × Int))) (w : World)
    (h : ∀ events ∈ polled, ∀ e ∈ events, ¬ isJumpRelease e) (hg : grounded w)
    (hacc : w.player.acc_y ≤ 0) :
    (runLoop w polled).tile = w.tile ∧ (runLoop w polled).player.acc_y = w.player.acc_y ∧
      grounded (runLoop w polled) := by
  induction polled generalizing w with
  | nil => exact ⟨rfl, rfl, hg⟩
  | cons events rest ih =>
    have h0 := h events (List.mem_cons_self events rest)
    have hstep := loopIteration_grounded w events h0 hg
    have hr := ih (loopIteration w events) (fun ev hev => h ev (List.mem_cons_of_mem events hev))
      (loopIteration_keeps_grounded w events h0 hg hacc) (by rw [hstep.2.1]; exact hacc)
    have hrun : runLoop w (events :: rest) = runLoop (loopIteration w events) rest := rfl
    rw [hrun]
    exact ⟨hr.1.trans hstep.1, hr.2.1.trans hstep.2.1, hr.2.2⟩

theorem runLoop_rest (polled : List (List (Int × Int))) (w : World)
    (h : ∀ events ∈ polled, ∀ e ∈ events, ¬ isJumpRelease e) (hg : grounded w)
    (hacc : w.player.acc_y ≤ 0) (hne : polled ≠ []) :
    (runLoop w polled).player.vel_y = w.player.acc_y ∧
      (runLoop w polled).player.y = w.tile.y + w.tile.height + w.player.acc_y := by
  rcases List.eq_nil_or_concat polled with hnil | ⟨front, last, hcat⟩
  · exact absurd hnil hne
  · rw [List.concat_eq_append] at hcat
    subst hcat
    have hfront := runLoop_grounded front w
      (fun ev hev => h ev (List.mem_append_left _ hev)) hg hacc
    have hlast := loopIteration_grounded (runLoop w front) last
      (h last (List.mem_append_right _ (List.mem_singleton_self last))) hfront.2.2
    have hrun : runLoop w (front ++ [last]) = loopIteration (runLoop w front) last := by
      simp [runLoop, List.foldl_append]
    rw [hrun, hlast.2.2.1, hlast.2.2.2, hfront.1, hfront.2.1]
    exact ⟨rfl, rfl⟩

/-- The free fall of the start state without input, in closed form, up to first contact. -/
theorem fall_closed_form (n : Nat) (hn : n ≤ 24) :
    updatePlayer^[n] initialWorld =
      { initialWorld with
        player := { initialWorld.player with
          vel_y := -(n : ℚ) / 1000, y := -1 / 2 - (n : ℚ) * ((n : ℚ) + 1) / 2000 } } := by
  induction n with
  | zero => norm_num [initialWorld]
  | succ k ih =>
    have hk : (k : ℚ) ≤ 23 := by exact_mod_cast Nat.le_of_succ_le_succ hn
    have hk0 : (0 : ℚ) ≤ (k : ℚ) := Nat.cast_nonneg k
    have hv : ¬ (-(k : ℚ) / 1000 > 0) := by
      apply not_lt.mpr
      apply div_nonpos_of_nonpos_of_nonneg <;> linarith
    have hy : ¬ (-1 / 2 - (k : ℚ) * ((k : ℚ) + 1) / 2000 ≤ -1 + 0.2) := by
      apply not_le.mpr
      norm_num
      nlinarith
    rw [Function.iterate_succ_apply', ih (Nat.le_of_succ_le hn)]
    simp [updatePlayer, integrate, collideFloor, chooseAnimation, initialWorld, hv, hy]
    refine ⟨?_, ?_⟩ <;> norm_num <;> ring

/-- Ticks without input, started grounded under a non-positive `acc_y`, all end at rest. -/
theorem iterate_rest (k : Nat) (w : World) (hg : grounded w) (hacc : w.player.acc_y ≤ 0) :
    (updatePlayer^[k + 1] w).tile = w.tile ∧
      (updatePlayer^[k + 1] w).player.acc_y = w.player.acc_y ∧
      (updatePlayer^[k + 1] w).player.vel_y = w.player.acc_y ∧
      (updatePlayer^[k + 1] w).player.y = w.tile.y + w.tile.height + w.player.acc_y := by
  induction k with
  | zero =>
    have hu := updatePlayer_grounded w hg.1 hg.2
    exact ⟨rfl, updatePlayer_acc_y w, hu.1, hu.2⟩
  | succ j ih =>
    obtain ⟨h1, h2, h3, h4⟩ := ih
    have hg2 : grounded (updatePlayer^[j + 1] w) := by
      unfold grounded
      rw [h1, h3, h4]
      exact ⟨by linarith, hacc⟩
    have hu := updatePlayer_grounded (updatePlayer^[j + 1] w) hg2.1 hg2.2
    rw [Function.iterate_succ_apply']
    refine ⟨h1, (updatePlayer_acc_y _).trans h2, hu.1.trans h2, hu.2.trans ?_⟩
    rw [h1, h2]

/-- C10: a tick that starts with `position.y ≤ tile.y + tile.height` and `vel_y ≤ 0` ends,
whatever the keys, with `vel_y = acc_y` and `position.y = tile.y + tile.height + acc_y`.
When `acc_y ≤ 0`, the state stays grounded through any number of loop iterations whose
key events hold no release of the jump key, and after each of them the player is at
`tile.y + tile.height + acc_y` with `vel_y = acc_y`. For the start state of the program
without input, the player is above the tile top after each of the first twenty-three
ticks, at the tile top `-0.8` after tick twenty-four, and at `position.y = -0.801`
with `vel_y = -0.001` after every later tick. -/
theorem C10_grounded_rest (w : World)
    (hy : w.player.y ≤ w.tile.y + w.tile.height) (hv : w.player.vel_y ≤ 0) :
    ((updatePlayer w).player.vel_y = w.player.acc_y ∧
        (updatePlayer w).player.y = w.tile.y + w.tile.height + w.player.acc_y) ∧
      (w.player.acc_y ≤ 0 →
        ∀ polled : List (List (Int × Int)),
          (∀ events ∈ polled, ∀ e ∈ events, ¬ isJumpRelease e) →
            grounded (runLoop w polled) ∧
              (polled ≠ [] →
                (runLoop w polled).player.vel_y = w.player.acc_y ∧
                  (runLoop w polled).player.y =
                    w.tile.y + w.tile.height + w.player.acc_y)) ∧
      ((∀ n : Nat, n < 24 →
          (updatePlayer^[n] initialWorld).player.y >
            initialWorld.tile.y + initialWorld.tile.height) ∧
        (updatePlayer^[24] initialWorld).player.y =
          initialWorld.tile.y + initialWorld.tile.height ∧
        ∀ n : Nat, 25 ≤ n →
          (updatePlayer^[n] initialWorld).player.y = -0.801 ∧
            (updatePlayer^[n] initialWorld).player.vel_y = -0.001) := by
  refine ⟨updatePlayer_grounded w hy hv, ?_, ?_, ?_, ?_⟩
  · intro hacc polled hfree
    exact ⟨(runLoop_grounded polled w hfree ⟨hy, hv⟩ hacc).2.2,
      runLoop_rest polled w hfree ⟨hy, hv⟩ hacc⟩
  · intro n hn
    have hk : (n : ℚ) ≤ 23 := by exact_mod_cast Nat.le_of_lt_succ hn
    have hk0 : (0 : ℚ) ≤ (n : ℚ) := Nat.cast_nonneg n
    rw [fall_closed_form n (Nat.le_of_lt hn)]
    norm_num [initialWorld]
    nlinarith
  · rw [fall_closed_form 24 (le_refl 24)]
    norm_num [initialWorld]
  · intro n hn
    obtain ⟨k, rfl⟩ : ∃ k, n = k + 1 + 24 := ⟨n - 25, by omega⟩
    have hc : updatePlayer^[24] initialWorld = contactWorld := by
      rw [fall_closed_form 24 (le_refl 24)]
      norm_num [contactWorld, initialWorld]
    have hg : grounded contactWorld := by
      unfold grounded
      norm_num [contactWorld, initialWorld]
    have hr := iterate_rest k contactWorld hg (by norm_num [contactWorld, initialWorld])
    rw [Function.iterate_add_apply, hc, hr.2.2.2, hr.2.2.1]
    norm_num [contactWorld, initialWorld]

/-- C10, witness: the program at first contact (`y = -0.8`, `vel_y = -0.024`) is grounded,
and after three loop iterations with key events but no jump release the player is at
`position.y = -0.801` with `vel_y = -0.001`. -/
theorem C10_grounded_rest_witness :
    grounded contactWorld ∧
      (updatePlayer contactWorld).player.vel_y = -0.001 ∧
      (updatePlayer contactWorld).player.y = -0.801 ∧
      (runLoop contactWorld samplePolled).player.vel_y = -0.001 ∧
      (runLoop contactWorld samplePolled).player.y = -0.801 := by
  have hg : grounded contactWorld := by
    unfold grounded
    norm_num [contactWorld, initialWorld]
  have h := C10_grounded_rest contactWorld hg.1 hg.2
  have hrun := (h.2.1 (by norm_num [contactWorld, initialWorld]) samplePolled
    (by decide)).2 (by decide)
  refine ⟨hg, h.1.1.trans ?_, h.1.2.trans ?_, hrun.1.trans ?_, hrun.2.trans ?_⟩ <;>
    norm_num [contactWorld, initialWorld]

end Platformer
